import Mathlib

/-!
# UHPM package-lifecycle engine: a shallow embedding

This file embeds, in Lean, the parts of the UHPM package manager that the
specification's testable claims are about:

* the relational catalog (`src/db.rs`, struct `PackageDB`): the three tables
  `packages`, `installed_files`, `dependencies` and their operations;
* the installer (`src/package/installer.rs`): `install`, `create_symlinks`,
  `unpack`;
* the remover (`src/package/remover.rs`): `remove`;
* the switcher (`src/package/switcher.rs`): the deactivation loop of
  `switch_version`;
* the updater (`src/package/updater.rs`): `check_for_update`;
* the symlist module (`src/symlist.rs`): `parse_symlist_line` and
  `expand_vars`.

Strings are manipulated at the `List Char` level (a Lean `String` is a list
of characters) so that the parsing and path functions can be both executed
on concrete inputs and reasoned about by induction.  SQLite rows are lists of
records in table order; `fetch_optional` is `List.find?`, `DELETE ... WHERE`
is `List.filter`, and `ORDER BY version DESC LIMIT 1` is a fold computing the
greatest version string in the byte-wise (BINARY collation) order.

An important schema fact carried over from `PackageDB::init` (db.rs:46-90):
the `packages` table is declared with `id INTEGER PRIMARY KEY` and **no**
UNIQUE constraint on `(name, version)`.  Consequently `INSERT OR REPLACE`
never hits a conflict and always appends a fresh row.  The other two tables
do declare composite primary keys, so their `INSERT OR REPLACE` is a real
upsert (delete the conflicting row, then insert).
-/

namespace Uhpm

/-- Equality of `Except` results is decidable componentwise (used to evaluate
the embedded fallible functions on concrete inputs). -/
instance {ε α : Type} [DecidableEq ε] [DecidableEq α] : DecidableEq (Except ε α) := by
  intro x y
  cases x with
  | error a =>
    cases y with
    | error b =>
      cases decEq a b with
      | isTrue h => exact isTrue (by rw [h])
      | isFalse h => exact isFalse (by intro hc; injection hc; exact h (by assumption))
    | ok b => exact isFalse (by intro hc; exact Except.noConfusion hc)
  | ok a =>
    cases y with
    | error b => exact isFalse (by intro hc; exact Except.noConfusion hc)
    | ok b =>
      cases decEq a b with
      | isTrue h => exact isTrue (by rw [h])
      | isFalse h => exact isFalse (by intro hc; injection hc; exact h (by assumption))

/-! ## Characters and basic list-of-char utilities -/

/-- Whitespace test used by `str::trim` in Rust.  Rust trims the full Unicode
whitespace set; `Char.isWhitespace` covers space, tab, CR and LF, which agree
with Rust on every input considered in this development. -/
def isWS (c : Char) : Bool := c.isWhitespace

/-- Rust `str::trim`: drop whitespace from both ends. -/
def trimChars (cs : List Char) : List Char :=
  ((cs.dropWhile isWS).reverse.dropWhile isWS).reverse

/-- Split a list at the first space character, i.e. `str::splitn(2, ' ')`
restricted to its two-chunk result: `none` when no space occurs. -/
def splitFirstSpace : List Char → Option (List Char × List Char)
  | [] => none
  | c :: cs =>
    if c = ' ' then some ([], cs)
    else match splitFirstSpace cs with
         | none => none
         | some (a, b) => some (c :: a, b)

/-- Boolean list-prefix test. -/
def isPrefixCh : List Char → List Char → Bool
  | [], _ => true
  | _ :: _, [] => false
  | a :: as, b :: bs => a == b && isPrefixCh as bs

/-- One fuel-counted pass of `str::replace`: each step consumes at least one
character of the haystack, so fuel equal to the haystack length runs the
scan to completion.  The fuel only makes the recursion structural. -/
def replaceFuel (pat repl : List Char) : Nat → List Char → List Char
  | 0, s => s
  | Nat.succ fuel, s =>
    match s with
    | [] => []
    | c :: cs =>
      if pat ≠ [] ∧ isPrefixCh pat (c :: cs) = true then
        repl ++ replaceFuel pat repl fuel ((c :: cs).drop pat.length)
      else
        c :: replaceFuel pat repl fuel cs

/-- Rust `str::replace`: replace every non-overlapping occurrence of `pat` in the
haystack, scanning left to right.  An empty pattern leaves the haystack
unchanged (a nonempty pattern is always supplied below). -/
def replaceAll (pat repl : List Char) (s : List Char) : List Char :=
  replaceFuel pat repl s.length s

/-- Split a character list on a separator character (used for `'.'` in
version strings and `'/'` in paths). -/
def splitOnCh (sep : Char) : List Char → List (List Char)
  | [] => [[]]
  | c :: cs =>
    let rest := splitOnCh sep cs
    if c = sep then [] :: rest
    else match rest with
         | [] => [[c]]
         | r :: rs => (c :: r) :: rs

/-- Byte-wise (code-point) strict order on character lists: SQLite's BINARY
collation used by `ORDER BY version DESC`. -/
def charListLt : List Char → List Char → Bool
  | [], [] => false
  | [], _ :: _ => true
  | _ :: _, [] => false
  | a :: as, b :: bs => if a = b then charListLt as bs else decide (a < b)

/-- String comparison under the BINARY collation. -/
def strLt (a b : String) : Bool := charListLt a.toList b.toList

/-! ## Semantic versions

The repository uses the `semver` crate's `Version`.  All versions stored or
compared by the code paths under study are plain `MAJOR.MINOR.PATCH` triples;
the embedding models that numeric fragment.  `parseVersion` accepts exactly
the dotted numeric triples (each component a digit string with no leading
zero), mirroring `semver::Version::parse` on that fragment and rejecting
everything else. -/

structure SemVer where
  major : Nat
  minor : Nat
  patch : Nat
deriving DecidableEq, Repr

/-- Lexicographic semver order on numeric triples (`Version::cmp` without
pre-release identifiers). -/
def semverLt (a b : SemVer) : Bool :=
  if a.major ≠ b.major then a.major < b.major
  else if a.minor ≠ b.minor then a.minor < b.minor
  else a.patch < b.patch

def semverGt (a b : SemVer) : Bool := semverLt b a

/-- A numeric identifier: nonempty, all digits, no leading zero. -/
def parseNumericPart (cs : List Char) : Option Nat :=
  match cs with
  | [] => none
  | c :: rest =>
    if !(c :: rest).all Char.isDigit then none
    else if c = '0' ∧ rest ≠ [] then none
    else some ((c :: rest).foldl (fun n d => n * 10 + (d.toNat - 48)) 0)

def parseVersion (s : String) : Option SemVer :=
  match splitOnCh '.' s.toList with
  | [a, b, c] =>
    match parseNumericPart a, parseNumericPart b, parseNumericPart c with
    | some ma, some mb, some mc => some ⟨ma, mb, mc⟩
    | _, _, _ => none
  | _ => none

/-- Model of `Version::parse(..).unwrap_or_else(|_| Version::new(0, 0, 0))`
(db.rs `is_installed`, line 352). -/
def parseVersionD (s : String) : SemVer := (parseVersion s).getD ⟨0, 0, 0⟩

def SemVer.toStr (v : SemVer) : String :=
  toString v.major ++ "." ++ toString v.minor ++ "." ++ toString v.patch

/-! ## The in-memory `Package` value (`src/package.rs`) -/

/-- Enum `Source`: URL | local path | opaque raw string. -/
inductive Source
  | url (s : String)
  | localPath (s : String)
  | raw (s : String)
deriving DecidableEq, Repr

/-- Accessor `Source::as_str` (package.rs:64-69). -/
def Source.asStr : Source → String
  | .url s => s
  | .raw s => s
  | .localPath p => p

/-- Struct `Package` (package.rs:81-88); `dependencies` in the accessor's
`(name, version)` pair form. -/
structure Package where
  name : String
  author : String
  version : SemVer
  src : Source
  checksum : String
  dependencies : List (String × SemVer)
deriving DecidableEq, Repr

/-! ## The catalog (`src/db.rs`) -/

/-- One row of the `packages` table.  The implicit `id INTEGER PRIMARY KEY`
is position in the list; `(name, version)` carry **no** UNIQUE constraint. -/
structure PkgRow where
  name : String
  version : String
  author : String
  src : String
  checksum : String
  current : Bool
deriving DecidableEq, Repr

/-- One row of `installed_files`, primary key (name, version, path). -/
structure FileRow where
  packageName : String
  packageVersion : String
  filePath : String
deriving DecidableEq, Repr

/-- One row of `dependencies`, primary key (package_name, dependency_name). -/
structure DepRow where
  packageName : String
  depName : String
  depVersion : String
deriving DecidableEq, Repr

structure Catalog where
  packages : List PkgRow
  installedFiles : List FileRow
  dependencies : List DepRow
deriving DecidableEq, Repr

def emptyCatalog : Catalog := ⟨[], [], []⟩

/-- Operation `PackageDB::add_package` (db.rs:97-111): `INSERT OR REPLACE INTO packages
... VALUES (?, ?, ?, ?, ?, 0)`.  The table has no UNIQUE(name, version), so
the statement appends a row with `current = 0` unconditionally. -/
def addPackage (c : Catalog) (pkg : Package) : Catalog :=
  { c with packages := c.packages ++
      [⟨pkg.name, pkg.version.toStr, pkg.author, pkg.src.asStr, pkg.checksum, false⟩] }

/-- Statement `INSERT OR REPLACE` into `dependencies` under its composite primary key:
delete the conflicting row, then insert. -/
def upsertDep (deps : List DepRow) (r : DepRow) : List DepRow :=
  deps.filter (fun d => !(d.packageName == r.packageName && d.depName == r.depName)) ++ [r]

/-- Statement `INSERT OR REPLACE` into `installed_files` under its composite primary
key. -/
def upsertFile (files : List FileRow) (r : FileRow) : List FileRow :=
  files.filter (fun f =>
    !(f.packageName == r.packageName && f.packageVersion == r.packageVersion
        && f.filePath == r.filePath)) ++ [r]

/-- Operation `PackageDB::add_package_full` (db.rs:114-157): add the package row, then
upsert each declared dependency, then upsert each installed file. -/
def addPackageFull (c : Catalog) (pkg : Package) (installedFiles : List String) : Catalog :=
  let c := addPackage c pkg
  let c := { c with dependencies :=
      (pkg.dependencies.foldl
        (fun acc (d : String × SemVer) => upsertDep acc ⟨pkg.name, d.1, d.2.toStr⟩)
        c.dependencies) }
  { c with installedFiles :=
      (installedFiles.foldl
        (fun acc f => upsertFile acc ⟨pkg.name, pkg.version.toStr, f⟩) c.installedFiles) }

/-- Operation `PackageDB::get_installed_files` (db.rs:160-185). -/
def getInstalledFiles (c : Catalog) (name version : String) : List String :=
  (c.installedFiles.filter
    (fun f => f.packageName == name && f.packageVersion == version)).map (·.filePath)

/-- Operation `PackageDB::get_all_installed_files` (db.rs:188-204). -/
def getAllInstalledFiles (c : Catalog) (name : String) : List String :=
  (c.installedFiles.filter (fun f => f.packageName == name)).map (·.filePath)

/-- Operation `PackageDB::remove_package_version` (db.rs:207-229).  Note the
`dependencies` delete is scoped by package name only. -/
def removePackageVersion (c : Catalog) (name version : String) : Catalog :=
  { installedFiles := c.installedFiles.filter
      (fun f => !(f.packageName == name && f.packageVersion == version)),
    dependencies := c.dependencies.filter (fun d => !(d.packageName == name)),
    packages := c.packages.filter (fun r => !(r.name == name && r.version == version)) }

/-- Operation `PackageDB::remove_package` (db.rs:232-248): delete every row for the
name in all three tables. -/
def removePackage (c : Catalog) (name : String) : Catalog :=
  { installedFiles := c.installedFiles.filter (fun f => !(f.packageName == name)),
    dependencies := c.dependencies.filter (fun d => !(d.packageName == name)),
    packages := c.packages.filter (fun r => !(r.name == name)) }

/-- Operation `PackageDB::get_package_version` (db.rs:251-260): the version of the
first row (table order) with `name = ? AND current = 1`. -/
def getPackageVersion (c : Catalog) (name : String) : Option String :=
  (c.packages.find? (fun r => r.name == name && r.current)).map (·.version)

/-- Operation `PackageDB::set_current_version` (db.rs:413-432): two UPDATE statements:
first clear `current` on every row of the name, then set it on the rows
matching both name and version. -/
def setCurrentVersion (c : Catalog) (name version : String) : Catalog :=
  let ps := c.packages.map (fun r => if r.name == name then { r with current := false } else r)
  let ps := ps.map (fun r =>
    if r.name == name && r.version == version then { r with current := true } else r)
  { c with packages := ps }

/-- Operation `PackageDB::is_installed` (db.rs:341-359): `SELECT version ... ORDER BY
version DESC LIMIT 1` — the greatest version **string** in BINARY order —
parsed as semver with fallback `0.0.0`. -/
def isInstalled (c : Catalog) (name : String) : Option SemVer :=
  match (c.packages.filter (fun r => r.name == name)).map (·.version) with
  | [] => none
  | v :: vs => some (parseVersionD (vs.foldl (fun a b => if strLt a b then b else a) v))

/-- Rust `Iterator::max_by` keeps the later element when two compare equal:
`reduce(|acc, y| if cmp(acc, y) == Greater =acc else y=)`. -/
def maxBySecond (x : PkgRow × SemVer) (xs : List (PkgRow × SemVer)) : PkgRow × SemVer :=
  xs.foldl (fun acc y => if semverGt acc.2 y.2 then acc else y) x

/-- Operation `PackageDB::get_latest_package_version` (db.rs:263-319): fetch all rows
for the name, keep those with parseable versions, take the max-semver row and
rebuild a `Package` — with `Source::Raw(src)` and an empty dependency
vector. -/
def getLatestPackageVersion (c : Catalog) (name : String) : Option Package :=
  let rows := c.packages.filter (fun r => r.name == name)
  if rows.isEmpty then none
  else
    match rows.filterMap (fun r => (parseVersion r.version).map (fun v => (r, v))) with
    | [] => none
    | x :: xs =>
      let m := maxBySecond x xs
      some ⟨m.1.name, m.1.author, m.2, Source.raw m.1.src, m.1.checksum, []⟩

/-- Number of rows of the name flagged current (the quantity invariant I1
bounds by one). -/
def currentCount (c : Catalog) (name : String) : Nat :=
  (c.packages.filter (fun r => r.name == name && r.current)).length

/-! ## A small filesystem

Paths are strings; a node is a regular file, a directory, or a symbolic
link carrying its (unresolved) target.  Removal (`remove_file`,
`remove_dir_all`) drops the node at the path.  Parent-directory creation
(`create_dir_all`) is not tracked: the claims under study only observe the
nodes at activation-link target paths and at package directories. -/

inductive FsNode
  | file
  | dir
  | symlink (target : String)
deriving DecidableEq, Repr

abbrev Fs := List (String × FsNode)

/-- The node recorded at a path (`symlink_metadata` view: a symlink is
reported as itself, not followed). -/
def fsLookup (fs : Fs) (p : String) : Option FsNode :=
  (fs.find? (fun kv => kv.1 == p)).map (·.2)

/-- Rust `Path::exists` follows symlinks: a dangling symlink reports `false`.
Link targets are resolved one level; the states built by the lifecycle
operations only ever link to regular files. -/
def pathExists (fs : Fs) (p : String) : Bool :=
  match fsLookup fs p with
  | none => false
  | some (FsNode.symlink t) => (fsLookup fs t).isSome
  | some _ => true

/-- Removal `remove_file` / `remove_dir_all`: drop the node at the path. -/
def removePath (fs : Fs) (p : String) : Fs :=
  fs.filter (fun kv => !(kv.1 == p))

/-- Write (or overwrite) a node at a path. -/
def setNode (fs : Fs) (p : String) (n : FsNode) : Fs :=
  removePath fs p ++ [(p, n)]

/-- Path `~/.uhpm/packages/<name>-<version>` (remover.rs:71-73). -/
def pkgDirPath (home name version : String) : String :=
  home ++ "/.uhpm/packages/" ++ name ++ "-" ++ version

/-! ## Activation (`create_symlinks`, installer.rs:168-218)

`load_symlist` returns pairs `(package_root.join(source), expand_vars
(target))`; the installer's re-join `package_root.join(&src_rel)` is the
identity because the source component is already absolute.  The entry list
below is that parsed symlist.  For each entry: a missing source is skipped;
an existing node at the target is removed; then either a byte copy (direct
mode) or a symlink to the source is created, and the target path is
appended to the returned list. -/

def createSymlinksStep (direct : Bool) (acc : Fs × List String) (e : String × String) :
    Fs × List String :=
  let (fs, installed) := acc
  let (srcAbs, dstAbs) := e
  if !pathExists fs srcAbs then acc
  else
    let fs := if pathExists fs dstAbs then removePath fs dstAbs else fs
    let fs := if direct then setNode fs dstAbs FsNode.file
              else setNode fs dstAbs (FsNode.symlink srcAbs)
    (fs, installed ++ [dstAbs])

def createSymlinks (fs : Fs) (symlinks : List (String × String)) (direct : Bool) :
    Fs × List String :=
  symlinks.foldl (createSymlinksStep direct) (fs, [])

/-! ## The installer (`installer.rs::install`, lines 74-152)

The archive staging (`unpack`), the `uhp.toml` parse and the move of the
staged tree into `packages/<name>-<version>` are orthogonal to the claims
settled here and are not tracked; `pkg` is the parsed manifest and
`symlinks` the package's parsed symlist.  The catalog and activation steps
mirror the source:

1. `is_installed(name)`: if the returned version equals the manifest
   version, return `Ok` with no effect (installer.rs:92-102);
2. otherwise symlinks are created **only when no version of the name was
   installed** (the `match already_installed` at installer.rs:124-132);
   with `Some(_)` the install records an empty file list;
3. `add_package_full`, then `set_current_version`. -/

def install (c : Catalog) (fs : Fs) (pkg : Package)
    (symlinks : List (String × String)) (direct : Bool) : Catalog × Fs :=
  match isInstalled c pkg.name with
  | some installedVersion =>
    if installedVersion = pkg.version then (c, fs)
    else
      let c := addPackageFull c pkg []
      let c := setCurrentVersion c pkg.name pkg.version.toStr
      (c, fs)
  | none =>
    let (fs, installedFiles) := createSymlinks fs symlinks direct
    let c := addPackageFull c pkg installedFiles
    let c := setCurrentVersion c pkg.name pkg.version.toStr
    (c, fs)

/-! ## The remover (`remover.rs::remove`, lines 59-106)

1. the catalog's **current** version of the name; absent → `Ok` no-op;
2. delete `~/.uhpm/packages/<name>-<version>` when it exists;
3. for every file recorded for the **name** (the call passes only the
   package name; per the module doc it removes "all installed files
   recorded in the database", i.e. every version's rows): when the path
   exists, `remove_dir_all` or `remove_file` it — with **no** inspection of
   the node's type or link target;
4. `remove_package(name)`: drop every row of the name from all three
   tables.  No remaining version is re-elected or re-activated. -/

def removerRemove (home : String) (c : Catalog) (fs : Fs) (name : String) :
    Catalog × Fs :=
  match getPackageVersion c name with
  | none => (c, fs)
  | some version =>
    let dir := pkgDirPath home name version
    let fs := if pathExists fs dir then removePath fs dir else fs
    let files := getAllInstalledFiles c name
    let fs := files.foldl (fun acc f => if pathExists acc f then removePath acc f else acc) fs
    (removePackage c name, fs)

/-! ## The switcher's deactivation loop (`switcher.rs::switch_version`,
lines 103-149)

For each symlist entry `(src_abs, dst_abs)` of the current version: a
non-existing target is skipped; otherwise `symlink_metadata` is consulted
and the target is deleted **only** when it is a symlink whose `read_link`
target equals `src_abs`; every other node — a regular file, a directory, or
a symlink elsewhere — is logged and left in place. -/

def switchDeactivateOne (fs : Fs) (e : String × String) : Fs :=
  let (srcAbs, dstAbs) := e
  if !pathExists fs dstAbs then fs
  else
    match fsLookup fs dstAbs with
    | some (FsNode.symlink linkTarget) =>
      if linkTarget = srcAbs then removePath fs dstAbs else fs
    | _ => fs

def switchDeactivate (fs : Fs) (symlinks : List (String × String)) : Fs :=
  symlinks.foldl switchDeactivateOne fs

/-! ## The updater (`updater.rs::check_for_update`, lines 17-111)

`repoPkgs` is the concatenation, in iteration order, of the configured
repositories' `list_packages()` rows `(name, version, url)`.  The loop keeps
a running `(latest_version, latest_url)` over the rows whose name matches
and whose version parses; the guard is `current_latest.is_none() || ver >
current_latest` — the parsed installed version `inst_ver` (updater.rs:86-87)
is bound but never compared.  The result is `Ok(latest_url)` when any row
matched, `Err(NoNewVersion)` otherwise. -/

inductive UpdaterErr
  | notFound (name : String)
  | noNewVersion (name : String)
deriving DecidableEq, Repr

def checkForUpdateStep (name : String) (acc : Option SemVer × Option String)
    (entry : String × String × String) : Option SemVer × Option String :=
  let (n, verStr, url) := entry
  if n == name then
    match parseVersion verStr with
    | some ver =>
      match acc.1 with
      | none => (some ver, some url)
      | some latest => if semverLt latest ver then (some ver, some url) else acc
    | none => acc
  else acc

def checkForUpdate (c : Catalog) (repoPkgs : List (String × String × String))
    (name : String) : Except UpdaterErr String :=
  match getPackageVersion c name with
  | none => .error (.notFound name)
  | some _installedVersion =>
    match (repoPkgs.foldl (checkForUpdateStep name) (none, none)).2 with
    | some url => .ok url
    | none => .error (.noNewVersion name)

/-! ## The symlist parser (`symlist.rs::parse_symlist_line`, lines 79-105) -/

structure SymlinkEntry where
  source : String
  target : String
deriving DecidableEq, Repr

/-- The `SymlistError::Parse` messages, as constructors: "Empty or comment
line", "Invalid line format, expected 'source target'", "Source or target
cannot be empty". -/
inductive SymlistParseErr
  | emptyOrComment
  | invalidFormat
  | emptyField
deriving DecidableEq, Repr

/-- Function `parse_symlist_line`: trim the line; reject empty/`#` lines; split with
`splitn(2, ' ')` — at the first **space character** (a fewer-than-two-chunk
result, i.e. a line with no space at all, is the format error); trim both
chunks; reject empty fields. -/
def parseSymlistLine (line : String) : Except SymlistParseErr SymlinkEntry :=
  let l := trimChars line.toList
  if l.isEmpty then .error .emptyOrComment
  else if l.head? = some '#' then .error .emptyOrComment
  else
    match splitFirstSpace l with
    | none => .error .invalidFormat
    | some (a, b) =>
      let source := trimChars a
      let target := trimChars b
      if source.isEmpty || target.isEmpty then .error .emptyField
      else .ok ⟨⟨source⟩, ⟨target⟩⟩

/-! ## The path and variable expander (`symlist.rs::expand_vars`,
lines 48-76)

The substitution map is built only when a home directory exists; the three
XDG entries fall back to their defaults beneath home.  The Rust code
iterates a `HashMap` in unspecified order; the four tokens do not overlap
textually and the substituted values carry no `$` tokens, so a fixed order
(the longer XDG tokens first, then `$HOME`) computes the same string.  The
function is total: it returns the substituted string as a path, with no
error branch and no check that the result is absolute. -/

structure Env where
  home : Option String
  xdgDataHome : Option String
  xdgConfigHome : Option String
  xdgBinHome : Option String

def replaceStr (s pat repl : String) : String :=
  ⟨replaceAll pat.toList repl.toList s.toList⟩

def expandVars (env : Env) (path : String) : String :=
  match env.home with
  | none => path
  | some home =>
    let dataDir := env.xdgDataHome.getD (home ++ "/.local/share")
    let configDir := env.xdgConfigHome.getD (home ++ "/.config")
    let binDir := env.xdgBinHome.getD (home ++ "/.local/bin")
    let p := replaceStr path "$XDG_DATA_HOME" dataDir
    let p := replaceStr p "$XDG_CONFIG_HOME" configDir
    let p := replaceStr p "$XDG_BIN_HOME" binDir
    replaceStr p "$HOME" home

/-- Rust `PathBuf::is_absolute` on Unix: the path begins with `/`. -/
def isAbsolute (p : String) : Bool :=
  match p.toList with
  | c :: _ => c == '/'
  | [] => false

/-! ## The archive engine (`installer.rs::unpack`, lines 233-268)

`unpack` itself checks only the `.uhp` extension and then hands the
gzip-decoded stream to `tar::Archive::unpack`, with no entry-path
validation of its own.  The tar crate's `unpack` places each entry by
iterating its path components: prefix/root and `.` components are dropped,
and an entry containing a `..` component is skipped entirely (it is never
written, and extraction continues).  `entries` is the archive's entry path
list; the result pairs the extraction directory with the paths written
beneath it. -/

/-- Rust `Path::file_name`: the component after the last `/`. -/
def fileNameOf (p : String) : String :=
  ⟨(splitOnCh '/' p.toList).getLastD []⟩

/-- Rust `Path::extension`: the part of the file name after the last dot, absent
for dotless names and for names whose only dot leads (".uhp" has no
extension). -/
def extensionOf (f : String) : Option String :=
  match splitOnCh '.' f.toList with
  | [] => none
  | [_] => none
  | first :: rest =>
    if first = [] ∧ rest.length = 1 then none
    else (rest.getLast?).map (fun e => ⟨e⟩)

/-- Rust `Path::file_stem`: the file name up to its extension. -/
def stemOf (f : String) : String :=
  match extensionOf f with
  | none => f
  | some e => ⟨f.toList.take (f.toList.length - (e.toList.length + 1))⟩

/-- Destination components of one tar entry under `unpack_in`: `none` when
the entry is skipped because of a `..` component. -/
def tarEntryDest (entryPath : String) : Option (List (List Char)) :=
  let comps := splitOnCh '/' entryPath.toList
  if comps.any (fun c => c = ['.', '.']) then none
  else some (comps.filter (fun c => c ≠ [] ∧ c ≠ ['.']))

def joinPath (dst : String) (comps : List (List Char)) : String :=
  comps.foldl (fun acc c => acc ++ "/" ++ (⟨c⟩ : String)) dst

/-- The paths written by `tar::Archive::unpack(dst)`. -/
def tarUnpack (dst : String) (entries : List String) : List String :=
  entries.filterMap (fun e => (tarEntryDest e).map (joinPath dst))

inductive UnpackErr
  | invalidInput
deriving DecidableEq, Repr

/-- Function `installer.rs::unpack`: refuse a non-`.uhp` path with
`io::ErrorKind::InvalidInput`; otherwise extract into
`~/.uhpm/tmp/<file-stem>` and return that directory (paired here with the
written paths).  No other error kind exists on this path — in particular no
`UnsafePath`. -/
def unpack (home : String) (pkgPath : String) (entries : List String) :
    Except UnpackErr (String × List String) :=
  if extensionOf (fileNameOf pkgPath) ≠ some "uhp" then .error .invalidInput
  else
    let unpackDir := home ++ "/.uhpm/tmp/" ++ stemOf (fileNameOf pkgPath)
    .ok (unpackDir, tarUnpack unpackDir entries)

/-! ## Supporting lemmas -/

/-- Filtering with a predicate annihilates a list previously filtered with
its negation (used for the catalog `DELETE ... WHERE name = ?`
statements). -/
theorem filter_after_filter_not {α : Type} (l : List α) (p : α → Bool) :
    (l.filter (fun x => !(p x))).filter p = [] := by
  induction l with
  | nil => rfl
  | cons a l ih =>
    by_cases h : p a = true
    · simp [List.filter_cons, h, ih]
    · simp only [Bool.not_eq_true] at h
      simp [List.filter_cons, h, ih]

/-- Removing one path leaves the node recorded at any other path alone. -/
theorem fsLookup_removePath_ne (fs : Fs) (p q : String) (h : p ≠ q) :
    fsLookup (removePath fs q) p = fsLookup fs p := by
  induction fs with
  | nil => rfl
  | cons kv fs ih =>
    simp only [removePath] at ih ⊢
    rw [List.filter_cons]
    by_cases hq : kv.1 = q
    · have hnotq : (!(kv.1 == q)) = false := by simp [hq]
      rw [hnotq, if_neg Bool.false_ne_true]
      have h1 : ¬ ((fun kv : String × FsNode => kv.1 == p) kv = true) := by
        simp only [beq_iff_eq, hq]
        exact fun hc => h hc.symm
      unfold fsLookup
      rw [show List.find? (fun kv : String × FsNode => kv.1 == p) (kv :: fs) =
            List.find? (fun kv : String × FsNode => kv.1 == p) fs from
          List.find?_cons_of_neg fs h1]
      exact ih
    · have hnotq : (!(kv.1 == q)) = true := by simp [hq]
      rw [hnotq, if_pos rfl]
      unfold fsLookup
      by_cases hp : kv.1 = p
      · rw [List.find?_cons_of_pos _ (by simp [hp]), List.find?_cons_of_pos _ (by simp [hp])]
      · rw [List.find?_cons_of_neg _ (by simp [hp]), List.find?_cons_of_neg _ (by simp [hp])]
        exact ih

/-- One deactivation step never disturbs a path that is not a symlink back
to the entry's source. -/
theorem switchDeactivateOne_preserves (fs : Fs) (e : String × String) (p : String)
    (node : FsNode) (h : fsLookup fs p = some node)
    (hne : e.2 = p → node ≠ FsNode.symlink e.1) :
    fsLookup (switchDeactivateOne fs e) p = some node := by
  obtain ⟨s, d⟩ := e
  simp only [switchDeactivateOne]
  by_cases hex : pathExists fs d = true
  · rw [hex]
    simp only [Bool.not_true, Bool.false_eq_true, if_false]
    cases hl : fsLookup fs d with
    | none => exact h
    | some n =>
      cases n with
      | file => exact h
      | dir => exact h
      | symlink t =>
        show fsLookup (if t = s then removePath fs d else fs) p = some node
        by_cases ht : t = s
        · rw [if_pos ht]
          by_cases hdp : d = p
          · subst hdp
            rw [h] at hl
            injection hl with hl
            subst ht
            exact absurd hl (hne rfl)
          · rw [fsLookup_removePath_ne fs p d (fun hc => hdp hc.symm)]
            exact h
        · rw [if_neg ht]
          exact h
  · simp only [Bool.not_eq_true] at hex
    rw [hex]
    simp only [Bool.not_false, if_true]
    exact h

theorem strToList_append (a b : String) : (a ++ b).toList = a.toList ++ b.toList := rfl

theorem isPrefixCh_extend (x : List Char) :
    ∀ (y z : List Char), isPrefixCh x y = true → isPrefixCh x (y ++ z) = true := by
  induction x with
  | nil => intro y z _; rfl
  | cons a as ih =>
    intro y z h
    cases y with
    | nil => exact absurd h (by simp [isPrefixCh])
    | cons b bs =>
      simp only [isPrefixCh, Bool.and_eq_true] at h
      simp only [List.cons_append, isPrefixCh, Bool.and_eq_true]
      exact ⟨h.1, ih bs z h.2⟩

theorem isPrefixCh_self (x : List Char) : isPrefixCh x x = true := by
  induction x with
  | nil => rfl
  | cons a as ih => simp [isPrefixCh, ih]

/-- Joining components under a directory keeps the directory as a textual
prefix of the result. -/
theorem joinPath_keeps_root (comps : List (List Char)) :
    ∀ (dir s : String), isPrefixCh dir.toList s.toList = true →
      isPrefixCh dir.toList (joinPath s comps).toList = true := by
  induction comps with
  | nil => intro dir s h; exact h
  | cons c cs ih =>
    intro dir s h
    show isPrefixCh dir.toList (joinPath (s ++ "/" ++ (⟨c⟩ : String)) cs).toList = true
    apply ih
    rw [strToList_append, strToList_append]
    exact isPrefixCh_extend _ _ _ (isPrefixCh_extend _ _ _ h)

theorem dropWhile_cons_nonws (a : Char) (l : List Char) (h : isWS a = false) :
    (a :: l).dropWhile isWS = a :: l := by
  simp [List.dropWhile_cons, h]

theorem dropWhile_eq_self_all (l : List Char) (h : ∀ c ∈ l, isWS c = false) :
    l.dropWhile isWS = l := by
  cases l with
  | nil => rfl
  | cons a t => exact dropWhile_cons_nonws a t (h a (List.mem_cons_self a t))

theorem trim_of_ends (u : List Char)
    (h1 : u.dropWhile isWS = u) (h2 : u.reverse.dropWhile isWS = u.reverse) :
    trimChars u = u := by
  unfold trimChars
  rw [h1, h2, List.reverse_reverse]

theorem trim_all_nonws (l : List Char) (h : ∀ c ∈ l, isWS c = false) :
    trimChars l = l := by
  apply trim_of_ends
  · exact dropWhile_eq_self_all l h
  · exact dropWhile_eq_self_all l.reverse (fun c hc => h c (List.mem_reverse.mp hc))

/-- Trimming never touches the middle of a list whose two ends are
non-whitespace. -/
theorem trim_outer (s mid t : List Char) (hs : s ≠ []) (ht : t ≠ [])
    (hsw : ∀ c ∈ s, isWS c = false) (htw : ∀ c ∈ t, isWS c = false) :
    trimChars (s ++ mid ++ t) = s ++ mid ++ t := by
  apply trim_of_ends
  · obtain ⟨a, s1, rfl⟩ := List.exists_cons_of_ne_nil hs
    rw [List.cons_append, List.cons_append]
    exact dropWhile_cons_nonws a _ (hsw a (List.mem_cons_self _ _))
  · have hrev : (s ++ mid ++ t).reverse = t.reverse ++ (mid.reverse ++ s.reverse) := by
      rw [List.reverse_append, List.reverse_append]
    have htrev : t.reverse ≠ [] := by simpa using ht
    obtain ⟨b, tr, hb⟩ := List.exists_cons_of_ne_nil htrev
    have hbmem : b ∈ t := by rw [← List.mem_reverse, hb]; exact List.mem_cons_self _ _
    rw [hrev, hb, List.cons_append]
    exact dropWhile_cons_nonws b _ (htw b hbmem)

theorem splitFirstSpace_append (s r : List Char) (h : ∀ c ∈ s, c ≠ ' ') :
    splitFirstSpace (s ++ ' ' :: r) = some (s, r) := by
  induction s with
  | nil => simp [splitFirstSpace]
  | cons a s ih =>
    rw [List.cons_append]
    simp only [splitFirstSpace]
    rw [if_neg (h a (List.mem_cons_self a s)),
        ih (fun c hc => h c (List.mem_cons_of_mem a hc))]

theorem dropWhile_replicate_space (k : Nat) (t : List Char) :
    (List.replicate k ' ' ++ t).dropWhile isWS = t.dropWhile isWS := by
  induction k with
  | zero => simp
  | succ k ih =>
    rw [List.replicate_succ, List.cons_append, List.dropWhile_cons]
    simpa using ih

theorem trim_replicate_space (k : Nat) (t : List Char) (htw : ∀ c ∈ t, isWS c = false) :
    trimChars (List.replicate k ' ' ++ t) = t := by
  unfold trimChars
  rw [dropWhile_replicate_space, dropWhile_eq_self_all t htw,
      dropWhile_eq_self_all t.reverse (fun c hc => htw c (List.mem_reverse.mp hc)),
      List.reverse_reverse]

/-! ## The claims -/

/-- Claim C1.  Claimed: after any completed catalog operation, at most one
`packages` row per name has `current = true` (invariant I1).  The schema in
`PackageDB::init` gives `packages` only the surrogate `id INTEGER PRIMARY
KEY` and no UNIQUE over `(name, version)`, so `add_package`'s `INSERT OR
REPLACE` never replaces: adding the same package twice leaves two rows, and
`set_current_version` — whose second UPDATE matches on name and version —
then flags both.  After this completed sequence of catalog operations, two
rows for `"hello"` are current. -/
theorem C1_i1_violated :
    currentCount
      (setCurrentVersion
        (addPackage
          (addPackage emptyCatalog ⟨"hello", "alice", ⟨1, 0, 0⟩, .raw "s", "c", []⟩)
          ⟨"hello", "alice", ⟨1, 0, 0⟩, .raw "s", "c", []⟩)
        "hello" "1.0.0") "hello" = 2 := by decide

/-- Claim C2, counterexample.  Two versions of `hello` are recorded and
`1.0.0` is current.  The claim says `remove` deletes only that version's
rows and then marks the remaining `2.0.0` current; the code instead calls
`remove_package`, which deletes the `2.0.0` row as well — afterwards no row
for the name remains at all, so nothing is current. -/
theorem C2_counterexample :
    (removerRemove "/home/user"
        ⟨[⟨"hello", "1.0.0", "a", "s", "c", true⟩,
          ⟨"hello", "2.0.0", "a", "s", "c", false⟩], [], []⟩
        [] "hello").1.packages = [] := by decide

/-- Claim C2, amended.  When a current version exists, `remove` deletes the
catalog rows of **every** version of the name from all three tables (and
the recorded files of every version from disk); no remaining version is
re-elected or re-activated — nothing of the name remains in the catalog. -/
theorem C2_remove_drops_all_rows (home : String) (c : Catalog) (fs : Fs)
    (name v : String) (h : getPackageVersion c name = some v) :
    ((removerRemove home c fs name).1.packages.filter (fun r => r.name == name)) = [] ∧
    ((removerRemove home c fs name).1.installedFiles.filter
        (fun f => f.packageName == name)) = [] ∧
    ((removerRemove home c fs name).1.dependencies.filter
        (fun d => d.packageName == name)) = [] := by
  simp only [removerRemove, h]
  exact ⟨filter_after_filter_not _ _, filter_after_filter_not _ _,
         filter_after_filter_not _ _⟩

theorem C2_remove_drops_all_rows_witness :
    getPackageVersion
        ⟨[⟨"hello", "1.0.0", "a", "s", "c", true⟩,
          ⟨"hello", "2.0.0", "a", "s", "c", false⟩], [], []⟩ "hello" = some "1.0.0" ∧
    (((removerRemove "/home/user"
        ⟨[⟨"hello", "1.0.0", "a", "s", "c", true⟩,
          ⟨"hello", "2.0.0", "a", "s", "c", false⟩], [], []⟩
        [] "hello").1.packages.filter (fun r => r.name == "hello")) = [] ∧
     (((removerRemove "/home/user"
        ⟨[⟨"hello", "1.0.0", "a", "s", "c", true⟩,
          ⟨"hello", "2.0.0", "a", "s", "c", false⟩], [], []⟩
        [] "hello").1.installedFiles.filter (fun f => f.packageName == "hello")) = [] ∧
      ((removerRemove "/home/user"
        ⟨[⟨"hello", "1.0.0", "a", "s", "c", true⟩,
          ⟨"hello", "2.0.0", "a", "s", "c", false⟩], [], []⟩
        [] "hello").1.dependencies.filter (fun d => d.packageName == "hello")) = [])) :=
  ⟨by decide,
   C2_remove_drops_all_rows "/home/user"
     ⟨[⟨"hello", "1.0.0", "a", "s", "c", true⟩,
       ⟨"hello", "2.0.0", "a", "s", "c", false⟩], [], []⟩
     [] "hello" "1.0.0" (by decide)⟩

/-- Claim C3, counterexample.  The catalog records the activation-link path
`/home/user/.local/bin/hello` for the current version of `hello`, but the
path holds a foreign **regular file**.  The claim says deactivation — as
used by remove — leaves such a file unchanged; `remover::remove` checks
only `path.exists()` and deletes it. -/
theorem C3_counterexample :
    fsLookup
      (removerRemove "/home/user"
        ⟨[⟨"hello", "1.0.0", "a", "s", "c", true⟩],
         [⟨"hello", "1.0.0", "/home/user/.local/bin/hello"⟩], []⟩
        [("/home/user/.local/bin/hello", FsNode.file)] "hello").2
      "/home/user/.local/bin/hello" = none := by decide

/-- Claim C3, amended.  The guarded rule holds for the switcher only: the
deactivation loop of `switch_version` deletes a recorded target path only
when it is a symlink whose link-target equals the entry's source, and any
path holding some other node — a foreign regular file, a directory, or a
symlink elsewhere — keeps that node unchanged.  (`remover::remove`, by
contrast, deletes whatever exists at a recorded path, as the counterexample
shows.) -/
theorem C3_switch_deactivation_frame (symlinks : List (String × String)) :
    ∀ (fs : Fs) (p : String) (node : FsNode),
      fsLookup fs p = some node →
      (∀ e ∈ symlinks, e.2 = p → node ≠ FsNode.symlink e.1) →
      fsLookup (switchDeactivate fs symlinks) p = some node := by
  induction symlinks with
  | nil => intro fs p node h _; exact h
  | cons e es ih =>
    intro fs p node h hne
    have h1 : fsLookup (switchDeactivateOne fs e) p = some node :=
      switchDeactivateOne_preserves fs e p node h
        (hne e (List.mem_cons_self e es))
    exact ih (switchDeactivateOne fs e) p node h1
      (fun x hx => hne x (List.mem_cons_of_mem e hx))

theorem C3_switch_deactivation_frame_witness :
    fsLookup [("/home/user/.local/bin/hello", FsNode.file)]
      "/home/user/.local/bin/hello" = some FsNode.file ∧
    fsLookup
      (switchDeactivate [("/home/user/.local/bin/hello", FsNode.file)]
        [("/home/user/.uhpm/packages/hello-1.0.0/bin/hello",
          "/home/user/.local/bin/hello")])
      "/home/user/.local/bin/hello" = some FsNode.file :=
  ⟨by decide,
   C3_switch_deactivation_frame
     [("/home/user/.uhpm/packages/hello-1.0.0/bin/hello",
       "/home/user/.local/bin/hello")]
     [("/home/user/.local/bin/hello", FsNode.file)]
     "/home/user/.local/bin/hello" FsNode.file (by decide) (by decide)⟩

/-- Claim C4, counterexample.  The exact pair `(hello, 1.0.0)` is already
recorded, but it is not the version `is_installed` reports (that query
returns the greatest version string, `2.0.0`), so the install proceeds and
modifies the catalog — appending a duplicate `1.0.0` row and re-pointing
the `current` flag — contradicting the claimed no-op. -/
theorem C4_counterexample :
    (install
        ⟨[⟨"hello", "1.0.0", "a", "s", "c", false⟩,
          ⟨"hello", "2.0.0", "a", "s", "c", true⟩], [], []⟩
        [] ⟨"hello", "a", ⟨1, 0, 0⟩, .raw "s", "c", []⟩ [] false).1 ≠
      ⟨[⟨"hello", "1.0.0", "a", "s", "c", false⟩,
        ⟨"hello", "2.0.0", "a", "s", "c", true⟩], [], []⟩ := by decide

/-- Claim C4, amended.  The install is a successful no-op (catalog and
filesystem unchanged) exactly when the archive's version equals the version
reported by `is_installed` — the greatest version **string** recorded for
the name — not whenever the exact pair is recorded.  In particular a repeat
install of the archive holding that greatest version changes nothing. -/
theorem C4_install_skip (c : Catalog) (fs : Fs) (pkg : Package)
    (symlinks : List (String × String)) (direct : Bool)
    (h : isInstalled c pkg.name = some pkg.version) :
    install c fs pkg symlinks direct = (c, fs) := by
  simp [install, h]

theorem C4_install_skip_witness :
    isInstalled ⟨[⟨"hello", "1.0.0", "a", "s", "c", true⟩], [], []⟩ "hello" =
      some (⟨1, 0, 0⟩ : SemVer) ∧
    install ⟨[⟨"hello", "1.0.0", "a", "s", "c", true⟩], [], []⟩
      [] ⟨"hello", "a", ⟨1, 0, 0⟩, .raw "s", "c", []⟩ [] false =
      (⟨[⟨"hello", "1.0.0", "a", "s", "c", true⟩], [], []⟩, []) :=
  ⟨by decide,
   C4_install_skip ⟨[⟨"hello", "1.0.0", "a", "s", "c", true⟩], [], []⟩
     [] ⟨"hello", "a", ⟨1, 0, 0⟩, .raw "s", "c", []⟩ [] false (by decide)⟩

/-- Claim C5.  Claimed: update only considers repository versions strictly
greater than the installed one and fails with `NoNewVersion` when the
installed version equals the repository maximum.  In `check_for_update` the
parsed installed version (`inst_ver`, updater.rs:86-87) is never compared:
the loop keeps the repository maximum unconditionally.  With `hello 1.0.0`
installed and the repository holding exactly `hello 1.0.0`, the function
returns that version's URL for re-fetching instead of
`Err(NoNewVersion)`. -/
theorem C5_update_refetches_equal_version :
    checkForUpdate ⟨[⟨"hello", "1.0.0", "a", "s", "c", true⟩], [], []⟩
      [("hello", "1.0.0", "http://repo/hello-1.0.0.uhp")] "hello" =
      .ok "http://repo/hello-1.0.0.uhp" := by decide

/-- Claim C6, counterexample.  `hello 1.0.0` is installed and current; the
archive installs `hello 2.0.0`, whose symlist names a source file that
exists on disk.  The claim says the install creates 2.0.0's activation link
(overwriting 1.0.0's symlink) and records it; the code's
`match already_installed` skips `create_symlinks` entirely whenever any
version is installed: the filesystem is returned unchanged (the target
still holds 1.0.0's symlink) and the recorded installed-files set of
`(hello, 2.0.0)` is empty — even though running activation on the same
state would have produced the link. -/
theorem C6_counterexample :
    (install ⟨[⟨"hello", "1.0.0", "a", "s", "c", true⟩],
        [⟨"hello", "1.0.0", "/home/user/.local/bin/hello"⟩], []⟩
      [("/home/user/.uhpm/packages/hello-1.0.0/bin/hello", FsNode.file),
       ("/home/user/.uhpm/packages/hello-2.0.0/bin/hello", FsNode.file),
       ("/home/user/.local/bin/hello",
        FsNode.symlink "/home/user/.uhpm/packages/hello-1.0.0/bin/hello")]
      ⟨"hello", "a", ⟨2, 0, 0⟩, .raw "s", "c", []⟩
      [("/home/user/.uhpm/packages/hello-2.0.0/bin/hello",
        "/home/user/.local/bin/hello")] false).2 =
      [("/home/user/.uhpm/packages/hello-1.0.0/bin/hello", FsNode.file),
       ("/home/user/.uhpm/packages/hello-2.0.0/bin/hello", FsNode.file),
       ("/home/user/.local/bin/hello",
        FsNode.symlink "/home/user/.uhpm/packages/hello-1.0.0/bin/hello")] ∧
    getInstalledFiles
      (install ⟨[⟨"hello", "1.0.0", "a", "s", "c", true⟩],
          [⟨"hello", "1.0.0", "/home/user/.local/bin/hello"⟩], []⟩
        [("/home/user/.uhpm/packages/hello-1.0.0/bin/hello", FsNode.file),
         ("/home/user/.uhpm/packages/hello-2.0.0/bin/hello", FsNode.file),
         ("/home/user/.local/bin/hello",
          FsNode.symlink "/home/user/.uhpm/packages/hello-1.0.0/bin/hello")]
        ⟨"hello", "a", ⟨2, 0, 0⟩, .raw "s", "c", []⟩
        [("/home/user/.uhpm/packages/hello-2.0.0/bin/hello",
          "/home/user/.local/bin/hello")] false).1 "hello" "2.0.0" = [] ∧
    (createSymlinks
        [("/home/user/.uhpm/packages/hello-1.0.0/bin/hello", FsNode.file),
         ("/home/user/.uhpm/packages/hello-2.0.0/bin/hello", FsNode.file),
         ("/home/user/.local/bin/hello",
          FsNode.symlink "/home/user/.uhpm/packages/hello-1.0.0/bin/hello")]
        [("/home/user/.uhpm/packages/hello-2.0.0/bin/hello",
          "/home/user/.local/bin/hello")] false).2 =
      ["/home/user/.local/bin/hello"] := by decide

/-- Claim C6, amended.  Activation runs only on the first install of a name.
When some version is already installed (at a different version, so the
install proceeds), `create_symlinks` is skipped: the install records an
empty installed-files list for the new version, leaves the filesystem
unchanged, and only re-points the `current` flag. -/
theorem C6_install_skips_activation (c : Catalog) (fs : Fs) (pkg : Package)
    (symlinks : List (String × String)) (direct : Bool) (v : SemVer)
    (h1 : isInstalled c pkg.name = some v) (h2 : v ≠ pkg.version) :
    install c fs pkg symlinks direct =
      (setCurrentVersion (addPackageFull c pkg []) pkg.name pkg.version.toStr, fs) := by
  simp [install, h1, h2]

theorem C6_install_skips_activation_witness :
    isInstalled ⟨[⟨"hello", "1.0.0", "a", "s", "c", true⟩], [], []⟩ "hello" =
      some (⟨1, 0, 0⟩ : SemVer) ∧
    (⟨1, 0, 0⟩ : SemVer) ≠ (⟨2, 0, 0⟩ : SemVer) ∧
    install ⟨[⟨"hello", "1.0.0", "a", "s", "c", true⟩], [], []⟩
        [] ⟨"hello", "a", ⟨2, 0, 0⟩, .raw "s", "c", []⟩
        [("/s", "/t")] false =
      (setCurrentVersion
        (addPackageFull ⟨[⟨"hello", "1.0.0", "a", "s", "c", true⟩], [], []⟩
          ⟨"hello", "a", ⟨2, 0, 0⟩, .raw "s", "c", []⟩ [])
        "hello" (SemVer.toStr ⟨2, 0, 0⟩), []) :=
  ⟨by decide, by decide,
   C6_install_skips_activation ⟨[⟨"hello", "1.0.0", "a", "s", "c", true⟩], [], []⟩
     [] ⟨"hello", "a", ⟨2, 0, 0⟩, .raw "s", "c", []⟩ [("/s", "/t")] false
     ⟨1, 0, 0⟩ (by decide) (by decide)⟩

/-- Claim C7, counterexample.  An archive entry `../etc/passwd` does not
make extraction fail: `unpack` has no entry-path validation of its own and
no `UnsafePath` error kind exists on its error path (`UnpackErr` mirrors
the only refusal, the `.uhp` extension check); the tar library silently
skips the entry.  Extraction returns `Ok` with nothing written — contrary
to the claimed `UnsafePath` failure. -/
theorem C7_counterexample :
    unpack "/home/user" "/home/user/dl/evil.uhp" ["../etc/passwd"] =
      .ok ("/home/user/.uhpm/tmp/evil", []) := by decide

/-- Claim C7, amended.  Extraction of a `.uhp` archive always succeeds
(entries with a `..` component are skipped by the tar library rather than
reported, and a leading `/` is stripped so absolute entries land inside the
root); every path actually written has the extraction directory as a
prefix, so nothing is touched outside the extraction root. -/
theorem C7_unpack_stays_in_root (home pkgPath : String) (entries : List String)
    (h : extensionOf (fileNameOf pkgPath) = some "uhp") :
    ∃ dir written, unpack home pkgPath entries = .ok (dir, written) ∧
      ∀ p ∈ written, isPrefixCh dir.toList p.toList = true := by
  refine ⟨home ++ "/.uhpm/tmp/" ++ stemOf (fileNameOf pkgPath),
          tarUnpack (home ++ "/.uhpm/tmp/" ++ stemOf (fileNameOf pkgPath)) entries,
          ?_, ?_⟩
  · simp [unpack, h]
  · intro p hp
    obtain ⟨e, _, hfe⟩ := List.mem_filterMap.mp hp
    obtain ⟨comps, _, hjoin⟩ := Option.map_eq_some'.mp hfe
    rw [← hjoin]
    exact joinPath_keeps_root comps _ _ (isPrefixCh_self _)

theorem C7_unpack_stays_in_root_witness :
    extensionOf (fileNameOf "/home/user/dl/hello-1.0.0.uhp") = some "uhp" ∧
    ∃ dir written,
      unpack "/home/user" "/home/user/dl/hello-1.0.0.uhp" ["bin/hello", "../evil"] =
        .ok (dir, written) ∧
      ∀ p ∈ written, isPrefixCh dir.toList p.toList = true :=
  ⟨by decide,
   C7_unpack_stays_in_root "/home/user" "/home/user/dl/hello-1.0.0.uhp"
     ["bin/hello", "../evil"] (by decide)⟩

/-- Claim C8, counterexample.  The claim says the first run of whitespace of
any kind — tabs included — splits source from target, so `"a\tb"` would
parse as `(a, b)`.  The code's `splitn(2, ' ')` splits at the first **space
character** only: a tab-separated line contains no space, `splitn` yields a
single chunk, and parsing fails with the format error. -/
theorem C8_counterexample :
    parseSymlistLine "a\tb" = .error .invalidFormat := by decide

/-- Claim C8, amended.  The first space character splits the line; each side
is then trimmed of surrounding whitespace, so for non-whitespace fields any
positive number of spaces as separator parses identically to a single
space.  (A separator without a space — e.g. a lone tab — remains a parse
error, as the counterexample shows.) -/
theorem C8_space_separator (s t : List Char) (k : Nat)
    (hs : s ≠ []) (ht : t ≠ [])
    (hsw : ∀ c ∈ s, isWS c = false) (htw : ∀ c ∈ t, isWS c = false)
    (hh : s.head? ≠ some '#') :
    parseSymlistLine ⟨s ++ List.replicate (k + 1) ' ' ++ t⟩ =
      .ok ⟨⟨s⟩, ⟨t⟩⟩ := by
  have hnospace : ∀ c ∈ s, c ≠ ' ' := by
    intro c hc hceq
    subst hceq
    exact absurd (hsw ' ' hc) (by decide)
  simp only [parseSymlistLine]
  rw [show (⟨s ++ List.replicate (k + 1) ' ' ++ t⟩ : String).toList
        = s ++ List.replicate (k + 1) ' ' ++ t from rfl]
  rw [trim_outer s (List.replicate (k + 1) ' ') t hs ht hsw htw]
  obtain ⟨a, s1, rfl⟩ := List.exists_cons_of_ne_nil hs
  rw [List.cons_append, List.cons_append]
  rw [if_neg (by simp)]
  rw [if_neg (by
    simp only [List.head?_cons]
    intro hc
    exact hh (by simpa using hc))]
  rw [show (a :: (s1 ++ List.replicate (k + 1) ' ' ++ t))
        = (a :: s1) ++ List.replicate (k + 1) ' ' ++ t from by simp]
  rw [List.replicate_succ, List.append_assoc, List.cons_append]
  have hsplit : splitFirstSpace (a :: (s1 ++ ((' ' :: List.replicate k ' ') ++ t)))
      = some (a :: s1, List.replicate k ' ' ++ t) := by
    rw [List.cons_append, ← List.cons_append]
    exact splitFirstSpace_append (a :: s1) (List.replicate k ' ' ++ t) hnospace
  rw [hsplit]
  show (if ((trimChars (a :: s1)).isEmpty
          || (trimChars (List.replicate k ' ' ++ t)).isEmpty) = true
        then (.error .emptyField : Except SymlistParseErr SymlinkEntry)
        else .ok ⟨⟨trimChars (a :: s1)⟩, ⟨trimChars (List.replicate k ' ' ++ t)⟩⟩)
      = .ok ⟨⟨a :: s1⟩, ⟨t⟩⟩
  rw [trim_all_nonws (a :: s1) hsw, trim_replicate_space k t htw]
  obtain ⟨b, t1, rfl⟩ := List.exists_cons_of_ne_nil ht
  rw [if_neg (by simp)]

theorem C8_space_separator_witness :
    parseSymlistLine ⟨['a'] ++ List.replicate (2 + 1) ' ' ++ ['b']⟩ =
      .ok ⟨⟨['a']⟩, ⟨['b']⟩⟩ :=
  C8_space_separator ['a'] ['b'] 2 (by decide) (by decide) (by decide) (by decide)
    (by decide)

/-- A replacement scan whose pattern starts with a character other than the
haystack's head leaves that head in place. -/
theorem replaceFuel_head_ne (p0 : Char) (pr repl : List Char) (c : Char)
    (cs : List Char) (n : Nat) (h : p0 ≠ c) :
    replaceFuel (p0 :: pr) repl (n + 1) (c :: cs) =
      c :: replaceFuel (p0 :: pr) repl n cs := by
  have hpre : isPrefixCh (p0 :: pr) (c :: cs) = false := by
    simp [isPrefixCh, h]
  simp [replaceFuel, hpre]

/-- Rust `str::replace` with a pattern that does not begin with `/` keeps a
leading `/`. -/
theorem replaceStr_keeps_absolute (s pat repl : String) (p0 : Char)
    (hp : pat.toList.head? = some p0) (hp0 : p0 ≠ '/')
    (h : isAbsolute s = true) : isAbsolute (replaceStr s pat repl) = true := by
  cases hpat : pat.toList with
  | nil => rw [hpat] at hp; exact absurd hp (by simp)
  | cons q qr =>
    rw [hpat] at hp
    have hq : q = p0 := by simpa using hp
    subst hq
    unfold isAbsolute at h
    cases hs : s.toList with
    | nil => rw [hs] at h; exact absurd h (by simp)
    | cons c cs =>
      rw [hs] at h
      have hc : c = '/' := beq_iff_eq.mp h
      subst hc
      unfold replaceStr replaceAll
      rw [hs, hpat]
      rw [show ('/' :: cs).length = cs.length + 1 from rfl]
      rw [replaceFuel_head_ne q qr repl.toList '/' cs cs.length hp0]
      rfl

/-- A list-picking fold returns the seed or one of the elements. -/
theorem foldl_pick_mem (g : PkgRow × SemVer → PkgRow × SemVer → Bool) :
    ∀ (xs : List (PkgRow × SemVer)) (x : PkgRow × SemVer),
      xs.foldl (fun acc y => if g acc y then acc else y) x ∈ x :: xs := by
  intro xs
  induction xs with
  | nil => intro x; exact List.mem_cons_self x []
  | cons y ys ih =>
    intro x
    rw [List.foldl_cons]
    have hm := ih (if g x y then x else y)
    rcases List.mem_cons.mp hm with hh | hh
    · rw [hh]
      by_cases hg : g x y = true
      · rw [if_pos hg]; exact List.mem_cons_self x (y :: ys)
      · rw [if_neg hg]
        exact List.mem_cons_of_mem x (List.mem_cons_self y ys)
    · exact List.mem_cons_of_mem x (List.mem_cons_of_mem y hh)

/-- Claim C9, counterexample.  The claim says the expander returns an
absolute path or fails with `InvalidPath`.  `expand_vars` has no error
branch at all (its return type is a plain `PathBuf`; `SymlistError` has no
`InvalidPath` kind): on a relative input with no tokens it returns the same
relative path. -/
theorem C9_counterexample :
    expandVars ⟨some "/home/user", none, none, none⟩ "foo/bar" = "foo/bar" ∧
    isAbsolute "foo/bar" = false := by decide

/-- Claim C9, amended.  The expander is a total textual substitution: it
never fails and never checks absoluteness.  It does preserve absoluteness —
an input beginning with `/` yields an output beginning with `/` — but a
relative input simply comes back relative (counterexample). -/
theorem C9_expand_preserves_absolute (env : Env) (p : String)
    (h : isAbsolute p = true) : isAbsolute (expandVars env p) = true := by
  unfold expandVars
  cases henv : env.home with
  | none => exact h
  | some home =>
    apply replaceStr_keeps_absolute _ _ _ '$' (by decide) (by decide)
    apply replaceStr_keeps_absolute _ _ _ '$' (by decide) (by decide)
    apply replaceStr_keeps_absolute _ _ _ '$' (by decide) (by decide)
    apply replaceStr_keeps_absolute _ _ _ '$' (by decide) (by decide)
    exact h

theorem C9_expand_preserves_absolute_witness :
    isAbsolute "/bin/$HOME" = true ∧
    isAbsolute (expandVars ⟨some "/home/user", none, none, none⟩ "/bin/$HOME") = true := by
  constructor
  · decide
  · exact C9_expand_preserves_absolute ⟨some "/home/user", none, none, none⟩
      "/bin/$HOME" (by decide)

/-- Claim C10.  Whatever dependencies and source tag were recorded for a
package, `get_latest_package_version` rebuilds the returned `Package` with
`Source::Raw` around the stored `src` column of the selected row and with
an empty dependency vector. -/
theorem C10_latest_raw_no_deps (c : Catalog) (name : String) (p : Package)
    (h : getLatestPackageVersion c name = some p) :
    p.dependencies = [] ∧
    ∃ r ∈ c.packages, r.name = name ∧ p.src = Source.raw r.src := by
  unfold getLatestPackageVersion at h
  by_cases hrows : (c.packages.filter (fun r => r.name == name)).isEmpty = true
  · rw [if_pos hrows] at h; exact absurd h (by simp)
  · rw [if_neg hrows] at h
    cases hpar : (c.packages.filter (fun r => r.name == name)).filterMap
        (fun r => (parseVersion r.version).map (fun v => (r, v))) with
    | nil => rw [hpar] at h; exact absurd h (by simp)
    | cons x xs =>
      rw [hpar] at h
      injection h with h
      have hm : maxBySecond x xs ∈ x :: xs :=
        foldl_pick_mem (fun acc y => semverGt acc.2 y.2) xs x
      rw [← hpar] at hm
      obtain ⟨r, hrmem, hfr⟩ := List.mem_filterMap.mp hm
      obtain ⟨v, _, hrv⟩ := Option.map_eq_some'.mp hfr
      have hr1 : (maxBySecond x xs).1 = r := by rw [← hrv]
      constructor
      · rw [← h]
      · refine ⟨r, (List.mem_filter.mp hrmem).1, ?_, ?_⟩
        · have := (List.mem_filter.mp hrmem).2
          exact beq_iff_eq.mp this
        · rw [← h]
          show Source.raw (maxBySecond x xs).1.src = Source.raw r.src
          rw [hr1]

theorem C10_latest_raw_no_deps_witness :
    (⟨"hello", "alice", ⟨1, 0, 0⟩, .raw "http://x", "chk", []⟩ : Package).dependencies
      = [] ∧
    ∃ r ∈ (⟨[⟨"hello", "1.0.0", "alice", "http://x", "chk", true⟩], [],
            [⟨"hello", "dep", "2.0.0"⟩]⟩ : Catalog).packages,
      r.name = "hello" ∧
      (⟨"hello", "alice", ⟨1, 0, 0⟩, .raw "http://x", "chk", []⟩ : Package).src
        = Source.raw r.src :=
  C10_latest_raw_no_deps
    ⟨[⟨"hello", "1.0.0", "alice", "http://x", "chk", true⟩], [],
     [⟨"hello", "dep", "2.0.0"⟩]⟩
    "hello" ⟨"hello", "alice", ⟨1, 0, 0⟩, .raw "http://x", "chk", []⟩ (by decide)

end Uhpm
